import Mathlib

/-
Verification of the BluStash incremental file indexer.

Shallow embedding of the data model (src/bluestash/db/models.py), the scan
synchronizer (src/bluestash/db/utils.py), the scan command pipeline
(src/bluestash/cli.py) and the backup stager
(src/bluestash/mapping_creator.py).

Representation conventions:
  - a filesystem path is a list of path segments under the root "/"
    (Path("/") / a / b  ≙  [a, b]);
  - file contents are lists of byte values (Nat);
  - machine integers are Nat; the 128-bit content digest is a Nat reduced
    modulo 2 ^ 128;
  - one relational store is a Db value holding the dir, file and
    scan_session tables as lists of rows in insertion order;
  - the SQLAlchemy session pending state is modelled by explicit state
    passing; a commit point is where a state becomes the committed one.
-/

namespace BluStash

/-- Row of the dir table (models.py, class Dir): surrogate id, one path
segment, xxh32 digest of the full path, nullable parent reference and the
mark-and-sweep validity flag. -/
structure DirRow where
  id : Nat
  name : String
  fullPathHash : Nat
  parentId : Option Nat
  isValid : Bool
  deriving Repr, DecidableEq

/-- Row of the file table (models.py, class File): surrogate id, owning dir,
name, size, 128-bit content digest, export flag and validity flag.
The two link fields are used by insert_files_with_progress but are absent
from models.py as given; they are Modelled from the spec: an optional
predecessor reference to a prior File row for the same path
(ancestorId) and an optional reference to the ScanSession that created the
row (sessionId). -/
structure FileRow where
  id : Nat
  dirId : Nat
  name : String
  size : Nat
  hashXx128 : Nat
  isSafed : Bool
  isValid : Bool
  ancestorId : Option Nat
  sessionId : Option Nat
  deriving Repr, DecidableEq

/-- Modelled from the spec: the ScanSession entity (surrogate id,
changed_files count) is referenced by cli.py and utils.py but its class is
missing from models.py as given; spec section 3 describes it as a surrogate
id, an external identifier, a start timestamp and a changed_files count.
Only the fields the claims mention are carried. -/
structure SessionRow where
  id : Nat
  changedFiles : Nat
  deriving Repr, DecidableEq

/-- One relational store with the three tables, rows in insertion order. -/
structure Db where
  dirs : List DirRow
  files : List FileRow
  sessions : List SessionRow
  deriving Repr, DecidableEq

/-- Two file rows are siblings with the same name when they agree on
(dir_id, name); the unique index ux_file_dir_name is declared on this key. -/
def sameFileKey (f g : FileRow) : Bool :=
  f.dirId == g.dirId && f.name == g.name

/-- Two dir rows collide on the unique index ux_dir_parent_name when they
agree on (parent_id, name). -/
def sameDirKey (d e : DirRow) : Bool :=
  d.parentId == e.parentId && d.name == e.name

/-- No two File rows share (dir_id, name). -/
def FileSiblingsUnique (files : List FileRow) : Prop :=
  files.Pairwise (fun f g => sameFileKey f g = false)

/-- No two Dir rows share (parent_id, name). -/
def DirSiblingsUnique (dirs : List DirRow) : Prop :=
  dirs.Pairwise (fun d e => sameDirKey d e = false)

/-- At most one File row with is_valid = true per (dir_id, name). -/
def AtMostOneValidPerKey (files : List FileRow) : Prop :=
  files.Pairwise (fun f g =>
    sameFileKey f g = true → f.isValid = false ∨ g.isValid = false)

instance (files : List FileRow) : Decidable (FileSiblingsUnique files) :=
  decidable_of_iff (files.Pairwise (fun f g => sameFileKey f g = false))
    Iff.rfl

instance (dirs : List DirRow) : Decidable (DirSiblingsUnique dirs) :=
  decidable_of_iff (dirs.Pairwise (fun d e => sameDirKey d e = false))
    Iff.rfl

instance (files : List FileRow) : Decidable (AtMostOneValidPerKey files) :=
  decidable_of_iff (files.Pairwise (fun f g =>
    sameFileKey f g = true → f.isValid = false ∨ g.isValid = false)) Iff.rfl

/-- Embedding of a flush or commit against the SQLite store. models.py
declares the unique indexes ux_dir_parent_name (lines 80-83) and
ux_file_dir_name (lines 159-161), create_all creates them, and SQLite
enforces a unique index on every INSERT: a flush whose resulting tables
would violate one raises IntegrityError (surfacing at the chunk flush and
commit, utils.py lines 261-263 and 271-272), which the caller answers
with a rollback (cli.py lines 299-304), so the store keeps its previous
state and the operation fails. -/
def commitChecked (committed proposed : Db) : Db × Bool :=
  if DirSiblingsUnique proposed.dirs ∧ FileSiblingsUnique proposed.files then
    (proposed, true)
  else (committed, false)

/-- Modelled from the spec: the external xxhash library digest
xxh3_128_hexdigest consumed by get_size_and_hash. The library is an
external dependency, not repository code; what the repository relies on is
that it is a pure function of the byte sequence producing a 128-bit value
("The digest must depend only on byte content, not on name, path, or
modification time"). A concrete executable stand-in digest is used. -/
def xxh3_128 (data : List Nat) : Nat :=
  (data.foldl (fun acc b => acc * 257 + b % 256 + 1) 0) % 2 ^ 128

/-- Embedding of get_size_and_hash (utils.py): read the file bytes once,
return (size, digest) where size counts the bytes actually read; a read
failure (none) propagates to the caller. The filesystem is a function from
paths to optional contents; modification time is not an input at all. -/
def getSizeAndHash (fs : List String → Option (List Nat)) (p : List String) :
    Option (Nat × Nat) :=
  match fs p with
  | none => none
  | some data => some (data.length, xxh3_128 data)

/-- One unit of file work handed to the reconcile loop: the owning dir row
id, the file name, and the (size, digest) get_size_and_hash produced. -/
structure FileTask where
  dirId : Nat
  name : String
  size : Nat
  hashVal : Nat
  deriving Repr, DecidableEq

/-- In-memory view of the file table during insert_files_with_progress:
the rows plus the next surrogate id a flush would assign. -/
structure FilesState where
  files : List FileRow
  nextId : Nat
  deriving Repr, DecidableEq

/-- Embedding of the File lookup in insert_files_with_progress:
select where name and dir_id match, order by id descending, first row. -/
def latestFileFor (files : List FileRow) (dirId : Nat) (nm : String) :
    Option FileRow :=
  (files.filter (fun f => f.name == nm && f.dirId == dirId)).foldl
    (fun best f =>
      match best with
      | none => some f
      | some g => if g.id < f.id then some f else some g)
    none

/-- Embedding of one iteration of the reconcile loop in
insert_files_with_progress (utils.py lines 214-249): look up the newest row
for (dir, name); if its stored digest matches the fresh one, revalidate
that row in place; otherwise add a new valid row carrying the scan session
reference and, when a prior row existed, that row as predecessor. -/
def processFile (sid : Nat) (st : FilesState) (t : FileTask) : FilesState :=
  match latestFileFor st.files t.dirId t.name with
  | some ex =>
    if ex.hashXx128 == t.hashVal then
      { st with
        files := st.files.map
          (fun f => if f.id == ex.id then { f with isValid := true } else f) }
    else
      { files := st.files ++
          [{ id := st.nextId, dirId := t.dirId, name := t.name,
             size := t.size, hashXx128 := t.hashVal, isSafed := false,
             isValid := true, ancestorId := some ex.id,
             sessionId := some sid }],
        nextId := st.nextId + 1 }
  | none =>
      { files := st.files ++
          [{ id := st.nextId, dirId := t.dirId, name := t.name,
             size := t.size, hashXx128 := t.hashVal, isSafed := false,
             isValid := true, ancestorId := none,
             sessionId := some sid }],
        nextId := st.nextId + 1 }

/-- Embedding of the reconcile loop over all observed files. -/
def applySeq (sid : Nat) (s : FilesState) (l : List FileTask) : FilesState :=
  l.foldl (processFile sid) s

/-- Embedding of reset_all_valid_flags (utils.py): bulk update setting
is_valid = false on every Dir and File row, then commit. -/
def resetAllValidFlags (db : Db) : Db :=
  { db with
    dirs := db.dirs.map (fun d => { d with isValid := false }),
    files := db.files.map (fun f => { f with isValid := false }) }

/-- First delete statement of delete_invalid_entries (utils.py):
delete(File).where(File.is_valid == False). -/
def deleteInvalidFiles (db : Db) : Db :=
  { db with files := db.files.filter (fun f => f.isValid) }

/-- Second delete statement of delete_invalid_entries (utils.py):
delete(Dir).where(Dir.is_valid == False). -/
def deleteInvalidDirs (db : Db) : Db :=
  { db with dirs := db.dirs.filter (fun d => d.isValid) }

/-- Embedding of delete_invalid_entries (utils.py lines 291-313): the file
delete runs first, the dir delete second, then one commit. -/
def deleteInvalidEntries (db : Db) : Db :=
  deleteInvalidDirs (deleteInvalidFiles db)

/-- Return value of delete_invalid_entries: the Python function body has no
return statement, so the caller receives None. -/
def deleteInvalidEntriesReturn : Option Nat :=
  none

/-- Embedding of the Python comparison deleted_files > 0 in cli.py line 256:
on an int it yields a Bool, on None it raises a TypeError. -/
def pyGtZero (x : Option Nat) : Except String Bool :=
  match x with
  | some n => Except.ok (decide (0 < n))
  | none => Except.error "TypeError: unorderable types: NoneType and int"

/-- Lookup of a dir row by surrogate id, as ORM relationship traversal
resolves a foreign key. -/
def findDir (dirs : List DirRow) (i : Nat) : Option DirRow :=
  dirs.find? (fun d => d.id == i)

/-- Fuel-indexed embedding of Dir.full_path (models.py lines 88-104): walk
the parent chain upwards collecting names, then join below the root "/".
The fuel argument only bounds the walk; with parents flushed before their
children (parent id below child id) a fuel of the own id always suffices. -/
def fullPathParts (dirs : List DirRow) : Nat → DirRow → List String
  | 0, d => [d.name]
  | Nat.succ fuel, d =>
    match d.parentId with
    | none => [d.name]
    | some p =>
      match findDir dirs p with
      | none => [d.name]
      | some pd => fullPathParts dirs fuel pd ++ [d.name]

/-- Embedding of Dir.full_path: the segment list of the reconstructed
absolute path of a dir row. -/
def fullPathSegs (dirs : List DirRow) (d : DirRow) : List String :=
  fullPathParts dirs d.id d

/-- Embedding of File.path (models.py lines 163-174): the owning dir
full path joined with the file name. -/
def filePathSegs (dirs : List DirRow) (f : FileRow) : List String :=
  (match findDir dirs f.dirId with
   | some d => fullPathSegs dirs d
   | none => []) ++ [f.name]

/-- One dir row has a well-formed parent link when its parent reference
resolves to a row with a smaller surrogate id, per the ordering guarantee
that a parent Dir is durably assigned an id before any child row. -/
def parentOkB (dirs : List DirRow) (d : DirRow) : Bool :=
  match d.parentId with
  | none => true
  | some p =>
    match findDir dirs p with
    | none => false
    | some pd => decide (pd.id < d.id)

/-- Well-formed parent chains for every row of the dir table. -/
def ParentWf (dirs : List DirRow) : Prop :=
  ∀ d ∈ dirs, parentOkB dirs d = true

instance (dirs : List DirRow) : Decidable (ParentWf dirs) :=
  decidable_of_iff (∀ d ∈ dirs, parentOkB dirs d = true) Iff.rfl

/-- Embedding of the row selection of create_mapping_from_db
(mapping_creator.py line 42): select(File).join(Dir).where(is_valid);
the inner join keeps only rows whose dir reference resolves. -/
def stagerSelect (db : Db) : List FileRow :=
  db.files.filter (fun f => f.isValid && (findDir db.dirs f.dirId).isSome)

/-- Embedding of the per-row loop body of create_mapping_from_db
(mapping_creator.py lines 44-54): skip rows already safed; compute the
source path; relative_to(base) succeeds exactly when base is a prefix of
the source path, otherwise the row is excluded with a warning; on success
the destination is "/" + data_dir + relative path, and the manifest line
and the row id are recorded. -/
def stagerRows (db : Db) (base : List String) (dataDir : String) :
    List (List String × List String × Nat) :=
  (stagerSelect db).filterMap (fun f =>
    if f.isSafed then none
    else
      let src := filePathSegs db.dirs f
      if base.isPrefixOf src then
        some (src, dataDir :: src.drop base.length, f.id)
      else none)

/-- The file mapping lines of the manifest (source, destination pairs). -/
def mappingLines (db : Db) (base : List String) (dataDir : String) :
    List (List String × List String) :=
  (stagerRows db base dataDir).map (fun r => (r.1, r.2.1))

/-- The ids of the File rows selected into the manifest. -/
def stagedFileIds (db : Db) (base : List String) (dataDir : String) :
    List Nat :=
  (stagerRows db base dataDir).map (fun r => r.2.2)

/-- The complete manifest (mapping_creator.py lines 53-69): the selected
file lines plus two fixed trailing entries, the index store file mapped
under the backup dir and the metadata sidecar mapped to backup/meta.json. -/
def manifestLines (db : Db) (base : List String) (dataDir backupDir : String)
    (dbFile metaFile : List String) : List (List String × List String) :=
  mappingLines db base dataDir
    ++ [(dbFile, [backupDir, dbFile.getLastD ""]),
        (metaFile, [backupDir, "meta.json"])]

/-- Embedding of the closing update of create_mapping_from_db
(mapping_creator.py lines 74-78): update(File).where(id in file_ids)
.values(is_safed=True) followed by one commit; only issued when file_ids
is nonempty. The update is unconditional in the sense that no result of
the physical export is an input anywhere. -/
def markSafed (db : Db) (ids : List Nat) : Db :=
  { db with
    files := db.files.map
      (fun f => if ids.contains f.id then { f with isSafed := true } else f) }

/-- Embedding of the whole staging run: the manifest file lines and the
store state after the closing update. -/
def createMappingFromDb (db : Db) (base : List String) (dataDir : String) :
    List (List String × List String) × Db :=
  let ids := stagedFileIds db base dataDir
  (mappingLines db base dataDir,
   if ids.isEmpty then db else markSafed db ids)

/-- Transactional view of the file table during the chunked loop: the last
committed state and the current in-memory state. -/
structure TxStore where
  committed : FilesState
  current : FilesState
  deriving Repr, DecidableEq

/-- The chunk_size default of insert_files_with_progress. -/
def defaultChunkSize : Nat := 1000

/-- Embedding of the chunked commit skeleton of insert_files_with_progress
(utils.py lines 214-264): process one file at a time at running index i and
commit the in-memory transaction whenever (i + 1) is a multiple of
chunk_size. -/
def runChunked (sid chunk : Nat) : TxStore → Nat → List FileTask → TxStore
  | st, _, [] => st
  | st, i, t :: ts =>
    let cur := processFile sid st.current t
    let st2 := if (i + 1) % chunk == 0 then TxStore.mk cur cur
               else TxStore.mk st.committed cur
    runChunked sid chunk st2 (i + 1) ts

/-- Embedding of session.rollback (cli.py lines 299-310): the in-memory
state falls back to the last committed state. -/
def rollbackTx (st : TxStore) : TxStore :=
  TxStore.mk st.committed st.committed

/-- Embedding of the complete insert_files_with_progress run including the
final flush and commit issued when the last group was partial or there was
no work at all (utils.py lines 266-273). -/
def insertFilesChunked (sid chunk : Nat) (s0 : FilesState)
    (tasks : List FileTask) : TxStore :=
  if tasks.length % chunk != 0 || tasks.length == 0 then
    TxStore.mk (runChunked sid chunk (TxStore.mk s0 s0) 0 tasks).current
      (runChunked sid chunk (TxStore.mk s0 s0) 0 tasks).current
  else runChunked sid chunk (TxStore.mk s0 s0) 0 tasks

/-- Revalidation of the observed directories during
scan_dirs_and_build_lookup: every visited existing dir row gets
is_valid = true (utils.py lines 147-152). New-dir insertion is not needed
by the claims settled against the pipeline. -/
def revalidateDirs (db : Db) (observed : List Nat) : Db :=
  { db with
    dirs := db.dirs.map
      (fun d => if observed.contains d.id then { d with isValid := true }
                else d) }

/-- The surrogate id a flush would hand to the next inserted file row. -/
def freshFileId (files : List FileRow) : Nat :=
  (files.foldl (fun m f => max m f.id) 0) + 1

/-- Final outcome of one scan command: the committed store and whether the
command finished without an error exit. -/
structure ScanOutcome where
  db : Db
  exitOk : Bool
  deriving Repr, DecidableEq

/-- Embedding of the scan command pipeline (cli.py scan_command, lines
141-310) at the level of committed store states:
invalidate everything (committed), revalidate the observed dirs, reconcile
the observed files with chunked commits, then sweep with a commit.
The ScanSession row is persisted exactly when at least one new File row
referencing it was committed (save-update cascade; Modelled from the spec
since the ScanSession class is missing from models.py); its changed_files
field is the number of files processed, which cli.py line 236 takes from
the return value of insert_files_with_progress.
After the sweep, cli.py line 256 evaluates deleted_files > 0 on the
return value of delete_invalid_entries; the branches below it translate
cli.py lines 257-284, and the error case translates the generic handler:
rollback of the pending state and exit code 1, leaving the already
committed states in the store. -/
def scanPipeline (db0 : Db) (observedDirs : List Nat)
    (tasks : List FileTask) (sid : Nat) : ScanOutcome :=
  let db1 := resetAllValidFlags db0
  let db2 := revalidateDirs db1 observedDirs
  let st0 : FilesState := FilesState.mk db2.files (freshFileId db2.files)
  let st1 := applySeq sid st0 tasks
  let inserted := st1.nextId - st0.nextId
  let processed := tasks.length
  let sessions1 :=
    if 0 < inserted then db2.sessions ++ [SessionRow.mk sid processed]
    else db2.sessions
  let db3 : Db := Db.mk db2.dirs st1.files sessions1
  let db4 := deleteInvalidEntries db3
  match pyGtZero deleteInvalidEntriesReturn with
  | Except.error _ => ScanOutcome.mk db4 false
  | Except.ok true =>
      let persisted := (0 < inserted) || (processed == 0)
      let total := processed + deleteInvalidEntriesReturn.getD 0
      let sessions2 :=
        if persisted then db2.sessions ++ [SessionRow.mk sid total]
        else db2.sessions
      ScanOutcome.mk (Db.mk db4.dirs db4.files sessions2) true
  | Except.ok false => ScanOutcome.mk db4 true

/-- Store holding one root dir and one valid indexed file, used to evaluate
the pipeline on a scan in which that file has vanished from disk. -/
def c2Db : Db :=
  Db.mk [DirRow.mk 1 "tim" 7 none true]
    [FileRow.mk 1 1 "x.txt" 5 111 false true none none]
    []

/-- File table holding one (invalidated) row for dir 1, name x.txt. -/
def c6Files : List FileRow :=
  [FileRow.mk 1 1 "x.txt" 5 111 false false none none]

/-- Fresh observation of the same (dir, name) with changed content. -/
def c6Task : FileTask := FileTask.mk 1 "x.txt" 5 222

/-- The table state a supersession step buffers in the ORM session before
the flush: reconciling the changed content of c6Task over the invalidated
c6Files appends a second row for the same (dir_id, name). The checked
commit refuses this proposal. -/
def c6ProposedDup : Db :=
  Db.mk [DirRow.mk 1 "tim" 7 none true]
    (processFile 1 (FilesState.mk c6Files 2) c6Task).files
    []

/-- Concrete task list for evaluating the chunked-commit skeleton. -/
def c8Tasks : List FileTask :=
  [FileTask.mk 1 "a" 1 10, FileTask.mk 1 "b" 1 11, FileTask.mk 1 "c" 1 12]

/-- Empty file-table state with next id 1. -/
def emptyFilesState : FilesState := FilesState.mk [] 1

/-- Dir table for the stager and path examples: scan root "tim" with one
subdirectory "a". -/
def stDirs : List DirRow :=
  [DirRow.mk 1 "tim" 7 none true, DirRow.mk 2 "a" 8 (some 1) true]

/-- File table for the stager examples: one valid unsafed row, one already
safed row and one invalid row, all under dir 2. -/
def stFiles : List FileRow :=
  [FileRow.mk 1 2 "f1.txt" 3 101 false true none none,
   FileRow.mk 2 2 "f2.txt" 3 102 true true none none,
   FileRow.mk 3 2 "f3.txt" 3 103 false false none none]

/-- Store for the stager examples. -/
def stDb : Db := Db.mk stDirs stFiles []

end BluStash

namespace BluStash

theorem foldl_latest_mem (l : List FileRow) :
    ∀ (acc : Option FileRow) (out : FileRow),
      l.foldl (fun best f =>
        match best with
        | none => some f
        | some g => if g.id < f.id then some f else some g) acc = some out →
      out ∈ l ∨ acc = some out := by
  induction l with
  | nil => intro acc out h; exact Or.inr h
  | cons f l ih =>
    intro acc out h
    rcases ih _ _ h with hmem | hacc
    · exact Or.inl (List.mem_cons_of_mem _ hmem)
    · cases acc with
      | none =>
        simp only at hacc
        have hfe : f = out := Option.some.inj hacc
        subst hfe
        exact Or.inl (List.mem_cons_self f l)
      | some g =>
        simp only at hacc
        by_cases hlt : g.id < f.id
        · rw [if_pos hlt] at hacc
          have hfe : f = out := Option.some.inj hacc
          subst hfe
          exact Or.inl (List.mem_cons_self f l)
        · rw [if_neg hlt] at hacc
          exact Or.inr hacc

theorem latestFileFor_mem {files : List FileRow} {dirId : Nat} {nm : String}
    {ex : FileRow} (h : latestFileFor files dirId nm = some ex) :
    ex ∈ files ∧ ex.dirId = dirId ∧ ex.name = nm := by
  unfold latestFileFor at h
  rcases foldl_latest_mem _ _ _ h with hmem | habs
  · rw [List.mem_filter] at hmem
    obtain ⟨hf, hp⟩ := hmem
    simp only [Bool.and_eq_true, beq_iff_eq] at hp
    exact ⟨hf, hp.2, hp.1⟩
  · cases habs

/-- C1: during reconciliation of a file whose computed content hash differs
from the stored hash for its (dir, name), or for which no row exists, the
scan inserts one new File row that is valid, linked to the current
ScanSession and linked to the prior row (if any) as predecessor, while all
prior rows are left exactly as they were (so a prior row that the
invalidate phase marked invalid stays invalid for the sweep). -/
theorem C1_supersession_inserts_linked_row (sid : Nat) (st : FilesState)
    (t : FileTask)
    (hchange : ∀ ex, latestFileFor st.files t.dirId t.name = some ex →
      ex.hashXx128 ≠ t.hashVal) :
    ∃ newRow : FileRow,
      (processFile sid st t).files = st.files ++ [newRow] ∧
      newRow.isValid = true ∧
      newRow.sessionId = some sid ∧
      newRow.ancestorId =
        (latestFileFor st.files t.dirId t.name).map FileRow.id ∧
      newRow.dirId = t.dirId ∧ newRow.name = t.name ∧
      newRow.size = t.size ∧ newRow.hashXx128 = t.hashVal ∧
      ∀ f ∈ st.files, f ∈ (processFile sid st t).files := by
  cases hl : latestFileFor st.files t.dirId t.name with
  | none =>
    refine ⟨FileRow.mk st.nextId t.dirId t.name t.size t.hashVal false true
      none (some sid), ?_, rfl, rfl, rfl, rfl, rfl, rfl, rfl, ?_⟩
    · simp [processFile, hl]
    · intro f hf
      simp [processFile, hl, hf]
  | some ex =>
    have hne : (ex.hashXx128 == t.hashVal) = false := by
      simp [hchange ex hl]
    refine ⟨FileRow.mk st.nextId t.dirId t.name t.size t.hashVal false true
      (some ex.id) (some sid), ?_, rfl, rfl, rfl, rfl, rfl, rfl,
      rfl, ?_⟩
    · simp [processFile, hl, hne]
    · intro f hf
      simp [processFile, hl, hne, hf]

/-- Witness for C1: inserting over an invalid prior row with a different
hash appends exactly one valid row linked to session 1 and to the prior
row id 1 as predecessor. -/
theorem C1_witness :
    (∀ ex, latestFileFor c6Files 1 "x.txt" = some ex →
      ex.hashXx128 ≠ 222) ∧
    ∃ newRow : FileRow,
      (processFile 1 (FilesState.mk c6Files 2) c6Task).files
        = c6Files ++ [newRow] ∧
      newRow.isValid = true ∧
      newRow.sessionId = some 1 ∧
      newRow.ancestorId = (latestFileFor c6Files 1 "x.txt").map FileRow.id ∧
      newRow.dirId = 1 ∧ newRow.name = "x.txt" ∧
      newRow.size = 5 ∧ newRow.hashXx128 = 222 ∧
      ∀ f ∈ c6Files,
        f ∈ (processFile 1 (FilesState.mk c6Files 2) c6Task).files :=
  ⟨by decide,
   C1_supersession_inserts_linked_row 1 (FilesState.mk c6Files 2) c6Task
     (by decide)⟩

/-- C9: during reconciliation of a file whose stored content hash equals
the freshly computed hash, the scan only sets the found row is_valid flag
to true: no row is inserted (table length and next id unchanged), every
other row is untouched, and the found row keeps its name, size, content
hash and every other column. -/
theorem C9_revalidate_only_sets_valid (sid : Nat) (st : FilesState)
    (t : FileTask) (ex : FileRow)
    (hfound : latestFileFor st.files t.dirId t.name = some ex)
    (hmatch : ex.hashXx128 = t.hashVal) :
    (processFile sid st t).nextId = st.nextId ∧
    (processFile sid st t).files.length = st.files.length ∧
    (processFile sid st t).files = st.files.map
      (fun f => if f.id == ex.id then { f with isValid := true } else f) ∧
    (∀ f ∈ st.files, f.id ≠ ex.id → f ∈ (processFile sid st t).files) ∧
    ∀ f ∈ st.files, ∃ g ∈ (processFile sid st t).files,
      g.name = f.name ∧ g.size = f.size ∧ g.hashXx128 = f.hashXx128 ∧
      g.dirId = f.dirId ∧ g.isSafed = f.isSafed ∧ g.id = f.id ∧
      g.ancestorId = f.ancestorId ∧ g.sessionId = f.sessionId ∧
      g.isValid = ((f.id == ex.id) || f.isValid) := by
  have hbeq : (ex.hashXx128 == t.hashVal) = true := by simp [hmatch]
  have hres : processFile sid st t =
      FilesState.mk
        (List.map
          (fun f => if f.id == ex.id then { f with isValid := true } else f)
          st.files)
        st.nextId := by
    simp [processFile, hfound, hbeq]
  refine ⟨by rw [hres], by rw [hres]; exact List.length_map _ _,
    by rw [hres], ?_, ?_⟩
  · intro f hf hid
    rw [hres]
    have himg : (if f.id == ex.id then { f with isValid := true } else f) = f := by
      simp [hid]
    exact himg ▸ List.mem_map_of_mem _ hf
  · intro f hf
    rw [hres]
    refine ⟨if f.id == ex.id then { f with isValid := true } else f,
      List.mem_map_of_mem _ hf, ?_⟩
    by_cases hid : f.id = ex.id
    · simp [hid]
    · simp [hid]

/-- Witness for C9: revalidating an unchanged file leaves the single row
in place with only is_valid raised. -/
theorem C9_witness :
    latestFileFor c6Files 1 "x.txt"
        = some (FileRow.mk 1 1 "x.txt" 5 111 false false none none) ∧
    (processFile 1 (FilesState.mk c6Files 2)
        (FileTask.mk 1 "x.txt" 5 111)).nextId = 2 ∧
    (processFile 1 (FilesState.mk c6Files 2)
        (FileTask.mk 1 "x.txt" 5 111)).files.length = c6Files.length :=
  ⟨by decide,
   (C9_revalidate_only_sets_valid 1 (FilesState.mk c6Files 2)
      (FileTask.mk 1 "x.txt" 5 111)
      (FileRow.mk 1 1 "x.txt" 5 111 false false none none)
      (by decide) (by decide)).1,
   (C9_revalidate_only_sets_valid 1 (FilesState.mk c6Files 2)
      (FileTask.mk 1 "x.txt" 5 111)
      (FileRow.mk 1 1 "x.txt" 5 111 false false none none)
      (by decide) (by decide)).2.1⟩

/-- C3: the sweep deletes every still-invalid File row, then every
still-invalid Dir row, in that order (the file delete leaves the dir table
untouched), keeps every valid row in order, and touches nothing else. -/
theorem C3_sweep_deletes_invalid_rows (db : Db) :
    deleteInvalidEntries db = deleteInvalidDirs (deleteInvalidFiles db) ∧
    (deleteInvalidFiles db).dirs = db.dirs ∧
    (∀ f ∈ (deleteInvalidEntries db).files, f.isValid = true) ∧
    (∀ d ∈ (deleteInvalidEntries db).dirs, d.isValid = true) ∧
    (∀ f ∈ db.files, f.isValid = true → f ∈ (deleteInvalidEntries db).files) ∧
    (∀ d ∈ db.dirs, d.isValid = true → d ∈ (deleteInvalidEntries db).dirs) ∧
    List.Sublist (deleteInvalidEntries db).files db.files ∧
    List.Sublist (deleteInvalidEntries db).dirs db.dirs ∧
    (deleteInvalidEntries db).sessions = db.sessions := by
  refine ⟨rfl, rfl, ?_, ?_, ?_, ?_, ?_, ?_, rfl⟩
  · intro f hf
    simpa using (List.mem_filter.mp hf).2
  · intro d hd
    simpa using (List.mem_filter.mp hd).2
  · intro f hf hv
    exact List.mem_filter.mpr ⟨hf, by simp [hv]⟩
  · intro d hd hv
    exact List.mem_filter.mpr ⟨hd, by simp [hv]⟩
  · exact List.filter_sublist _
  · exact List.filter_sublist _

/-- Witness for C3: sweeping the two-row stager store keeps the valid
unsafed row. -/
theorem C3_witness :
    FileRow.mk 1 2 "f1.txt" 3 101 false true none none
      ∈ (deleteInvalidEntries stDb).files :=
  (C3_sweep_deletes_invalid_rows stDb).2.2.2.2.1
    (FileRow.mk 1 2 "f1.txt" 3 101 false true none none)
    (by decide) (by decide)

/-- C7: for every readable file the hasher returns (size, digest) with the
size equal to the number of bytes read, and the digest is a function of
those bytes only: two reads yielding the same byte content produce the
same result whatever the path (modification time is not an input at all),
and the digest is a 128-bit value. -/
theorem C7_digest_depends_on_content_only
    (fs1 fs2 : List String → Option (List Nat)) (p1 p2 : List String)
    (data : List Nat) (h1 : fs1 p1 = some data) (h2 : fs2 p2 = some data) :
    getSizeAndHash fs1 p1 = some (data.length, xxh3_128 data) ∧
    getSizeAndHash fs1 p1 = getSizeAndHash fs2 p2 ∧
    xxh3_128 data < 2 ^ 128 := by
  refine ⟨by simp [getSizeAndHash, h1], by simp [getSizeAndHash, h1, h2], ?_⟩
  exact Nat.mod_lt _ (by norm_num)

/-- Witness for C7: hashing the two-byte content [104, 105] through two
different filesystems and paths yields one and the same (size, digest). -/
theorem C7_witness :
    getSizeAndHash (fun _ => some [104, 105]) ["a", "f.txt"]
      = getSizeAndHash (fun p => if p = ["b"] then some [104, 105] else none)
        ["b"] :=
  (C7_digest_depends_on_content_only
    (fun _ => some [104, 105])
    (fun p => if p = ["b"] then some [104, 105] else none)
    ["a", "f.txt"] ["b"] [104, 105] rfl (by simp)).2.1

/-- C2: the claim says a ScanSession row is persisted if and only if the
scan detects at least one insertion, content change or deletion. The code
disagrees on deletions: delete_invalid_entries has no return statement, so
cli.py line 256 compares None > 0, which raises a TypeError before the
session could be added; evaluating the pipeline on a store whose only
indexed file has vanished from disk shows the deletion is carried out
(the file row is swept) yet no ScanSession row is persisted and the
command takes the error exit. -/
theorem C2_deletion_scan_persists_no_session :
    c2Db.files.length = 1 ∧
    (scanPipeline c2Db [1] [] 1).db.files = [] ∧
    (scanPipeline c2Db [1] [] 1).db.sessions = [] ∧
    (scanPipeline c2Db [1] [] 1).db.dirs.length = 1 ∧
    (scanPipeline c2Db [1] [] 1).exitOk = false := by
  decide

theorem mem_eq_of_id_pairwise {l : List FileRow}
    (hids : l.Pairwise (fun f g => f.id ≠ g.id)) :
    ∀ f ∈ l, ∀ g ∈ l, f.id = g.id → f = g := by
  induction l with
  | nil => intro f hf; cases hf
  | cons a l ih =>
    rcases List.pairwise_cons.mp hids with ⟨ha, hl⟩
    intro f hf g hg he
    rcases List.mem_cons.mp hf with hfa | hfl
    · rcases List.mem_cons.mp hg with hga | hgl
      · rw [hfa, hga]
      · subst hfa
        exact absurd he (ha g hgl)
    · rcases List.mem_cons.mp hg with hga | hgl
      · subst hga
        exact absurd he.symm (ha f hfl)
      · exact ih hl f hfl g hgl he

theorem mem_stagerSelect {db : Db} {f : FileRow} :
    f ∈ stagerSelect db ↔
      f ∈ db.files ∧ (f.isValid && (findDir db.dirs f.dirId).isSome) = true :=
  List.mem_filter

theorem mem_stagedFileIds {db : Db} {base : List String} {dataDir : String}
    {n : Nat} :
    n ∈ stagedFileIds db base dataDir ↔
      ∃ h ∈ stagerSelect db, h.isSafed = false ∧
        base.isPrefixOf (filePathSegs db.dirs h) = true ∧ h.id = n := by
  unfold stagedFileIds stagerRows
  rw [List.mem_map]
  constructor
  · rintro ⟨r, hr, hrn⟩
    rw [List.mem_filterMap] at hr
    obtain ⟨h, hh, hg⟩ := hr
    by_cases hs : h.isSafed = true
    · rw [if_pos hs] at hg
      cases hg
    · rw [if_neg hs] at hg
      simp only at hg
      by_cases hp : base.isPrefixOf (filePathSegs db.dirs h) = true
      · rw [if_pos hp] at hg
        refine ⟨h, hh, Bool.eq_false_iff.mpr hs, hp, ?_⟩
        have : (filePathSegs db.dirs h,
            dataDir :: (filePathSegs db.dirs h).drop base.length, h.id) = r :=
          Option.some.inj hg
        rw [← hrn, ← this]
      · rw [if_neg hp] at hg
        cases hg
  · rintro ⟨h, hh, hs, hp, hn⟩
    refine ⟨(filePathSegs db.dirs h,
      dataDir :: (filePathSegs db.dirs h).drop base.length, h.id), ?_, hn⟩
    rw [List.mem_filterMap]
    exact ⟨h, hh, by rw [if_neg (by simp [hs]), if_pos hp]⟩

/-- C4: the backup stager considers exactly the File rows with
is_valid = true (SQL filter with the Dir join) and is_safed = false (loop
check): a row id enters the manifest selection exactly when the row is
valid, unsafed and its reconstructed source path lies under the base root;
a valid unsafed row whose path is not under the base root is excluded and
its is_safed flag is still false after the whole staging run. -/
theorem C4_stager_selection (db : Db) (base : List String) (dataDir : String)
    (hdir : ∀ f ∈ db.files, (findDir db.dirs f.dirId).isSome = true)
    (hids : db.files.Pairwise (fun f g => f.id ≠ g.id)) :
    (∀ f, f ∈ stagerSelect db ↔ f ∈ db.files ∧ f.isValid = true) ∧
    (∀ f ∈ db.files,
      (f.id ∈ stagedFileIds db base dataDir ↔
        f.isValid = true ∧ f.isSafed = false ∧
        base.isPrefixOf (filePathSegs db.dirs f) = true)) ∧
    (∀ f ∈ db.files, f.isValid = true → f.isSafed = false →
      base.isPrefixOf (filePathSegs db.dirs f) = false →
      f.id ∉ stagedFileIds db base dataDir ∧
      ∀ g ∈ ((createMappingFromDb db base dataDir).2).files,
        g.id = f.id → g.isSafed = false) := by
  have hsel : ∀ f, f ∈ stagerSelect db ↔ f ∈ db.files ∧ f.isValid = true := by
    intro f
    rw [mem_stagerSelect]
    constructor
    · rintro ⟨hf, hv⟩
      exact ⟨hf, (Bool.and_eq_true .. ▸ hv).1⟩
    · rintro ⟨hf, hv⟩
      exact ⟨hf, by rw [hv, hdir f hf]; rfl⟩
  have hmem : ∀ f ∈ db.files,
      (f.id ∈ stagedFileIds db base dataDir ↔
        f.isValid = true ∧ f.isSafed = false ∧
        base.isPrefixOf (filePathSegs db.dirs f) = true) := by
    intro f hf
    rw [mem_stagedFileIds]
    constructor
    · rintro ⟨h, hh, hs, hp, hn⟩
      obtain ⟨hhf, hhv⟩ := (hsel h).mp hh
      have : h = f := mem_eq_of_id_pairwise hids h hhf f hf hn
      subst this
      exact ⟨hhv, hs, hp⟩
    · rintro ⟨hv, hs, hp⟩
      exact ⟨f, (hsel f).mpr ⟨hf, hv⟩, hs, hp, rfl⟩
  refine ⟨hsel, hmem, ?_⟩
  intro f hf hv hs hp
  have hnot : f.id ∉ stagedFileIds db base dataDir := by
    intro hin
    have := ((hmem f hf).mp hin).2.2
    rw [hp] at this
    cases this
  refine ⟨hnot, ?_⟩
  intro g hg hgid
  unfold createMappingFromDb at hg
  simp only at hg
  by_cases hempty : (stagedFileIds db base dataDir).isEmpty = true
  · rw [if_pos hempty] at hg
    have : g = f := mem_eq_of_id_pairwise hids g hg f hf hgid
    rw [this, hs]
  · rw [if_neg hempty] at hg
    unfold markSafed at hg
    simp only [List.mem_map] at hg
    obtain ⟨h, hh, hup⟩ := hg
    by_cases hc : (stagedFileIds db base dataDir).contains h.id = true
    · rw [if_pos hc] at hup
      have hcid : g.id = h.id := by rw [← hup]
      have hmm : h.id ∈ stagedFileIds db base dataDir := by
        simpa using hc
      have hhf : h.id = f.id := by rw [← hcid, hgid]
      rw [hhf] at hmm
      exact absurd hmm hnot
    · rw [if_neg hc] at hup
      subst hup
      have : h = f := mem_eq_of_id_pairwise hids h hh f hf hgid
      rw [this, hs]

/-- Witness for C4: in the concrete store the valid unsafed row with id 1
under /tim/a is selected into the manifest. -/
theorem C4_witness :
    1 ∈ stagedFileIds stDb ["tim"] "data" :=
  ((C4_stager_selection stDb ["tim"] "data" (by decide) (by decide)).2.1
    (FileRow.mk 1 2 "f1.txt" 3 101 false true none none) (by decide)).mpr
    ⟨rfl, rfl, by decide⟩

/-- C5: after the manifest is produced, exactly the selected rows are
flagged is_safed = true by the single closing update; every other column
of every row, every non-selected row, the dir table and the session table
are untouched. The staging run takes no input describing the outcome of
the physical export, so the flagging cannot depend on it. -/
theorem C5_commit_flags_selected_only (db : Db) (base : List String)
    (dataDir : String) :
    ((createMappingFromDb db base dataDir).2).dirs = db.dirs ∧
    ((createMappingFromDb db base dataDir).2).sessions = db.sessions ∧
    ((createMappingFromDb db base dataDir).2).files.length
      = db.files.length ∧
    (∀ f ∈ db.files, f.id ∉ stagedFileIds db base dataDir →
      f ∈ ((createMappingFromDb db base dataDir).2).files) ∧
    (∀ f ∈ db.files, ∃ g ∈ ((createMappingFromDb db base dataDir).2).files,
      g.id = f.id ∧ g.name = f.name ∧ g.size = f.size ∧
      g.hashXx128 = f.hashXx128 ∧ g.dirId = f.dirId ∧
      g.isValid = f.isValid ∧ g.ancestorId = f.ancestorId ∧
      g.sessionId = f.sessionId ∧
      g.isSafed = (f.isSafed
        || (stagedFileIds db base dataDir).contains f.id)) ∧
    (∀ f ∈ db.files, f.id ∈ stagedFileIds db base dataDir →
      ∃ g ∈ ((createMappingFromDb db base dataDir).2).files,
        g.id = f.id ∧ g.isSafed = true) := by
  have hfiles : ((createMappingFromDb db base dataDir).2).files
      = db.files.map (fun f =>
          if (stagedFileIds db base dataDir).contains f.id then
            { f with isSafed := true } else f) := by
    unfold createMappingFromDb
    simp only
    by_cases hempty : (stagedFileIds db base dataDir).isEmpty = true
    · rw [if_pos hempty]
      have hnil : stagedFileIds db base dataDir = [] :=
        List.isEmpty_iff.mp hempty
      rw [hnil]
      simp
    · rw [if_neg hempty]
      rfl
  have hdirs : ((createMappingFromDb db base dataDir).2).dirs = db.dirs := by
    unfold createMappingFromDb
    simp only
    by_cases hempty : (stagedFileIds db base dataDir).isEmpty = true
    · rw [if_pos hempty]
    · rw [if_neg hempty]; rfl
  have hsess : ((createMappingFromDb db base dataDir).2).sessions
      = db.sessions := by
    unfold createMappingFromDb
    simp only
    by_cases hempty : (stagedFileIds db base dataDir).isEmpty = true
    · rw [if_pos hempty]
    · rw [if_neg hempty]; rfl
  refine ⟨hdirs, hsess, by rw [hfiles]; exact List.length_map _ _, ?_, ?_, ?_⟩
  · intro f hf hnot
    rw [hfiles]
    have hc : (stagedFileIds db base dataDir).contains f.id = false := by
      simpa using hnot
    have : (if (stagedFileIds db base dataDir).contains f.id then
        { f with isSafed := true } else f) = f := by
      rw [hc]; rfl
    exact this ▸ List.mem_map_of_mem _ hf
  · intro f hf
    rw [hfiles]
    refine ⟨if (stagedFileIds db base dataDir).contains f.id then
      { f with isSafed := true } else f, List.mem_map_of_mem _ hf, ?_⟩
    by_cases hc : (stagedFileIds db base dataDir).contains f.id = true
    · rw [if_pos hc, hc]
      exact ⟨rfl, rfl, rfl, rfl, rfl, rfl, rfl, rfl, by simp⟩
    · rw [if_neg hc, Bool.eq_false_iff.mpr hc]
      exact ⟨rfl, rfl, rfl, rfl, rfl, rfl, rfl, rfl, by simp⟩
  · intro f hf hin
    rw [hfiles]
    have hc : (stagedFileIds db base dataDir).contains f.id = true := by
      simpa using hin
    refine ⟨{ f with isSafed := true }, ?_, rfl, rfl⟩
    have : (if (stagedFileIds db base dataDir).contains f.id then
        { f with isSafed := true } else f) = { f with isSafed := true } := by
      rw [hc]; rfl
    exact this ▸ List.mem_map_of_mem _ hf

/-- Witness for C5: in the concrete store the staging run flags the
selected row 1 and keeps the already safed row and the invalid row with
their columns unchanged. -/
theorem C5_witness :
    (∃ g ∈ ((createMappingFromDb stDb ["tim"] "data").2).files,
      g.id = 1 ∧ g.isSafed = true) ∧
    FileRow.mk 3 2 "f3.txt" 3 103 false false none none
      ∈ ((createMappingFromDb stDb ["tim"] "data").2).files :=
  ⟨(C5_commit_flags_selected_only stDb ["tim"] "data").2.2.2.2.2
    (FileRow.mk 1 2 "f1.txt" 3 101 false true none none) (by decide)
    (by decide),
   (C5_commit_flags_selected_only stDb ["tim"] "data").2.2.2.1
    (FileRow.mk 3 2 "f3.txt" 3 103 false false none none) (by decide)
    (by decide)⟩

theorem sameFileKey_iff {f g : FileRow} :
    sameFileKey f g = true ↔ f.dirId = g.dirId ∧ f.name = g.name := by
  simp [sameFileKey]

theorem atMostOneValid_of_siblingsUnique {files : List FileRow}
    (h : FileSiblingsUnique files) : AtMostOneValidPerKey files :=
  List.Pairwise.imp (fun hk hkt => absurd hkt (by simp [hk])) h

theorem mod_succ_mod (chunk j : Nat) :
    (j % chunk + 1) % chunk = (j + 1) % chunk := by
  conv_lhs => rw [Nat.add_mod]
  conv_rhs => rw [Nat.add_mod]
  rw [Nat.mod_mod_of_dvd j (dvd_refl chunk)]

theorem runChunked_mod (sid chunk : Nat) :
    ∀ (l : List FileTask) (st : TxStore) (i : Nat),
      runChunked sid chunk st i l = runChunked sid chunk st (i % chunk) l := by
  intro l
  induction l with
  | nil => intro st i; rfl
  | cons t ts ih =>
    intro st i
    simp only [runChunked]
    rw [mod_succ_mod]
    rw [ih _ (i + 1), ih _ (i % chunk + 1), mod_succ_mod]

theorem runChunked_append (sid chunk : Nat) :
    ∀ (a b : List FileTask) (st : TxStore) (i : Nat),
      runChunked sid chunk st i (a ++ b)
        = runChunked sid chunk (runChunked sid chunk st i a)
            (i + a.length) b := by
  intro a
  induction a with
  | nil => intro b st i; simp [runChunked]
  | cons t ts ih =>
    intro b st i
    simp only [List.cons_append, runChunked, List.length_cons,
      List.append_eq]
    rw [ih]
    congr 1
    omega

theorem runChunked_no_commit (sid chunk : Nat) :
    ∀ (a : List FileTask) (i : Nat) (C X : FilesState),
      (∀ j, j < a.length → (i + j + 1) % chunk ≠ 0) →
      runChunked sid chunk (TxStore.mk C X) i a
        = TxStore.mk C (applySeq sid X a) := by
  intro a
  induction a with
  | nil => intro i C X h; rfl
  | cons t ts ih =>
    intro i C X h
    have h0 : ((i + 1) % chunk == 0) = false := by
      have := h 0 (by simp)
      simpa using this
    simp only [runChunked, h0]
    rw [if_neg (by simp [h0])]
    have hrest : ∀ j, j < ts.length → (i + 1 + j + 1) % chunk ≠ 0 := by
      intro j hj
      have heq : i + 1 + j + 1 = i + (j + 1) + 1 := by omega
      rw [heq]
      exact h (j + 1) (by simpa using Nat.succ_lt_succ hj)
    exact ih (i + 1) C (processFile sid X t) hrest

theorem runChunked_current (sid chunk : Nat) :
    ∀ (l : List FileTask) (st : TxStore) (i : Nat),
      (runChunked sid chunk st i l).current = applySeq sid st.current l := by
  intro l
  induction l with
  | nil => intro st i; rfl
  | cons t ts ih =>
    intro st i
    simp only [runChunked]
    by_cases hc : ((i + 1) % chunk == 0) = true
    · rw [if_pos hc]
      exact ih _ _
    · rw [if_neg (by simp [Bool.eq_false_iff.mpr hc])]
      exact ih _ _

theorem runChunked_full_chunk (sid chunk : Nat) (hc : 0 < chunk)
    (a : List FileTask) (ha : a.length = chunk) (C X : FilesState) :
    runChunked sid chunk (TxStore.mk C X) 0 a
      = TxStore.mk (applySeq sid X a) (applySeq sid X a) := by
  have hne : a ≠ [] := by
    intro h
    rw [h] at ha
    simp at ha
    omega
  obtain ⟨b, t, hbt⟩ : ∃ b t, a = b ++ [t] :=
    ⟨a.dropLast, a.getLast hne, (List.dropLast_append_getLast hne).symm⟩
  subst hbt
  have hb : b.length = chunk - 1 := by
    rw [List.length_append, List.length_singleton] at ha
    omega
  rw [runChunked_append]
  rw [runChunked_no_commit sid chunk b 0 C X ?hno]
  case hno =>
    intro j hj
    rw [hb] at hj
    have h1 : 0 + j + 1 < chunk := by omega
    rw [Nat.mod_eq_of_lt h1]
    omega
  simp only [runChunked]
  have hcond : ((0 + b.length + 1) % chunk == 0) = true := by
    have : 0 + b.length + 1 = chunk := by omega
    rw [this, Nat.mod_self]
    rfl
  rw [if_pos hcond]
  have happ : applySeq sid X (b ++ [t])
      = processFile sid (applySeq sid X b) t := by
    simp [applySeq, List.foldl_append]
  rw [happ]

theorem runChunked_committed (sid chunk : Nat) (hc : 0 < chunk) :
    ∀ (n : Nat) (l : List FileTask) (X : FilesState), l.length = n →
      (runChunked sid chunk (TxStore.mk X X) 0 l).committed
        = applySeq sid X (l.take (chunk * (l.length / chunk))) := by
  intro n
  induction n using Nat.strong_induction_on with
  | _ n ih =>
    intro l X hlen
    by_cases hsmall : l.length < chunk
    · have hdiv : l.length / chunk = 0 := Nat.div_eq_of_lt hsmall
      rw [hdiv, Nat.mul_zero, List.take_zero]
      rw [runChunked_no_commit sid chunk l 0 X X ?hno]
      case hno =>
        intro j hj
        have h1 : 0 + j + 1 < chunk := by omega
        rw [Nat.mod_eq_of_lt h1]
        omega
      rfl
    · push_neg at hsmall
      have hl : l = l.take chunk ++ l.drop chunk :=
        (List.take_append_drop chunk l).symm
      have hl1 : (l.take chunk).length = chunk := by
        rw [List.length_take]
        omega
      conv_lhs => rw [hl]
      rw [runChunked_append,
        runChunked_full_chunk sid chunk hc (l.take chunk) hl1 X X,
        runChunked_mod]
      have hidx : (0 + (l.take chunk).length) % chunk = 0 := by
        rw [hl1]
        simp [Nat.mod_self]
      rw [hidx]
      have hlt : (l.drop chunk).length < n := by
        rw [List.length_drop]
        omega
      rw [ih (l.drop chunk).length hlt (l.drop chunk)
        (applySeq sid X (l.take chunk)) rfl]
      have hdivs : l.length / chunk = (l.drop chunk).length / chunk + 1 := by
        rw [List.length_drop]
        exact Nat.div_eq_sub_div hc hsmall
      rw [hdivs, Nat.mul_add, Nat.mul_one, Nat.add_comm (chunk * _) chunk]
      rw [List.take_add]
      rw [show applySeq sid X (l.take chunk ++
          (l.drop chunk).take (chunk * ((l.drop chunk).length / chunk)))
          = applySeq sid (applySeq sid X (l.take chunk))
              ((l.drop chunk).take (chunk * ((l.drop chunk).length / chunk)))
        from by simp [applySeq, List.foldl_append]]

/-- C8: file processing commits in fixed-size groups with default group
size 1000: the complete run commits everything, and when an error aborts
the run after k files, the rollback leaves the store holding exactly the
rows produced by the first chunk * (k / chunk) files, that is, every fully
committed group survives and only the unfinished group rolls back. -/
theorem C8_chunked_commit_rollback (sid chunk k : Nat) (s0 : FilesState)
    (tasks : List FileTask) (hc : 0 < chunk) (hk : k ≤ tasks.length) :
    defaultChunkSize = 1000 ∧
    chunk * (k / chunk) ≤ k ∧
    (rollbackTx (runChunked sid chunk (TxStore.mk s0 s0) 0
        (tasks.take k))).current
      = applySeq sid s0 (tasks.take (chunk * (k / chunk))) ∧
    (insertFilesChunked sid chunk s0 tasks).committed
      = applySeq sid s0 tasks := by
  have hmle : chunk * (k / chunk) ≤ k := by
    calc chunk * (k / chunk) = k / chunk * chunk := Nat.mul_comm _ _
    _ ≤ k := Nat.div_mul_le_self k chunk
  have hlen : (tasks.take k).length = k := by
    rw [List.length_take]
    omega
  refine ⟨rfl, hmle, ?_, ?_⟩
  · have := runChunked_committed sid chunk hc (tasks.take k).length
      (tasks.take k) s0 rfl
    rw [hlen] at this
    rw [show (rollbackTx (runChunked sid chunk (TxStore.mk s0 s0) 0
        (tasks.take k))).current
        = (runChunked sid chunk (TxStore.mk s0 s0) 0
            (tasks.take k)).committed from rfl]
    rw [this, List.take_take, Nat.min_eq_left hmle]
  · unfold insertFilesChunked
    by_cases hfin : (tasks.length % chunk != 0 || tasks.length == 0) = true
    · rw [if_pos hfin]
      show (runChunked sid chunk (TxStore.mk s0 s0) 0 tasks).current
        = applySeq sid s0 tasks
      rw [runChunked_current]
    · rw [if_neg hfin]
      have hx : (tasks.length % chunk != 0 || tasks.length == 0) = false :=
        Bool.eq_false_iff.mpr hfin
      have hmod : tasks.length % chunk = 0 := by
        have h1 := (Bool.or_eq_false_iff.mp hx).1
        simpa using h1
      have hdvd : chunk ∣ tasks.length := Nat.dvd_of_mod_eq_zero hmod
      have hcm : chunk * (tasks.length / chunk) = tasks.length := by
        rw [Nat.mul_comm]
        exact Nat.div_mul_cancel hdvd
      have hrun := runChunked_committed sid chunk hc tasks.length tasks s0 rfl
      rw [hrun, hcm, List.take_length]

/-- Witness for C8: with chunk size 2 and an abort after the third of
three files, the store keeps exactly the first committed pair, and the
complete run commits all three. -/
theorem C8_witness :
    (rollbackTx (runChunked 1 2 (TxStore.mk emptyFilesState emptyFilesState)
        0 (c8Tasks.take 3))).current
      = applySeq 1 emptyFilesState (c8Tasks.take (2 * (3 / 2))) ∧
    (insertFilesChunked 1 2 emptyFilesState c8Tasks).committed
      = applySeq 1 emptyFilesState c8Tasks :=
  ⟨(C8_chunked_commit_rollback 1 2 3 emptyFilesState c8Tasks (by decide)
      (by decide)).2.2.1,
   (C8_chunked_commit_rollback 1 2 3 emptyFilesState c8Tasks (by decide)
      (by decide)).2.2.2⟩

theorem fullPathParts_parent_none {dirs : List DirRow} {d : DirRow}
    (h : d.parentId = none) : ∀ n, fullPathParts dirs n d = [d.name] := by
  intro n
  cases n with
  | zero => rfl
  | succ n => simp only [fullPathParts, h]

theorem parentOkB_resolve {dirs : List DirRow} {d : DirRow} {p : Nat}
    (h : parentOkB dirs d = true) (hp : d.parentId = some p) :
    ∃ pd, findDir dirs p = some pd ∧ pd.id < d.id := by
  simp only [parentOkB, hp] at h
  cases hfd : findDir dirs p with
  | none =>
    rw [hfd] at h
    cases h
  | some pd =>
    rw [hfd] at h
    exact ⟨pd, rfl, by simpa using h⟩

theorem fullPathParts_fuel (dirs : List DirRow) (hwf : ParentWf dirs) :
    ∀ (k : Nat) (d : DirRow), d ∈ dirs → d.id ≤ k →
      ∀ n m, d.id ≤ n → d.id ≤ m →
        fullPathParts dirs n d = fullPathParts dirs m d := by
  intro k
  induction k with
  | zero =>
    intro d hd hk n m hn hm
    cases hpid : d.parentId with
    | none =>
      rw [fullPathParts_parent_none hpid, fullPathParts_parent_none hpid]
    | some p =>
      obtain ⟨pd, hfd, hlt⟩ := parentOkB_resolve (hwf d hd) hpid
      omega
  | succ k ih =>
    intro d hd hk n m hn hm
    cases hpid : d.parentId with
    | none =>
      rw [fullPathParts_parent_none hpid, fullPathParts_parent_none hpid]
    | some p =>
      obtain ⟨pd, hfd, hlt⟩ := parentOkB_resolve (hwf d hd) hpid
      obtain ⟨n1, hn1⟩ : ∃ n1, n = n1 + 1 := ⟨n - 1, by omega⟩
      obtain ⟨m1, hm1⟩ : ∃ m1, m = m1 + 1 := ⟨m - 1, by omega⟩
      subst hn1
      subst hm1
      simp only [fullPathParts, hpid, hfd]
      congr 1
      have hpdmem : pd ∈ dirs := List.mem_of_find?_eq_some hfd
      exact ih pd hpdmem (by omega) n1 m1 (by omega) (by omega)

theorem fullPathSegs_parent (dirs : List DirRow) (hwf : ParentWf dirs)
    {d : DirRow} (hd : d ∈ dirs) {p : Nat} (hp : d.parentId = some p)
    {pd : DirRow} (hpd : findDir dirs p = some pd) :
    fullPathSegs dirs d = fullPathSegs dirs pd ++ [d.name] := by
  obtain ⟨pd2, hfd2, hlt⟩ := parentOkB_resolve (hwf d hd) hp
  rw [hfd2] at hpd
  have hpdeq : pd2 = pd := Option.some.inj hpd
  subst hpdeq
  obtain ⟨i, hi⟩ : ∃ i, d.id = i + 1 := ⟨d.id - 1, by omega⟩
  unfold fullPathSegs
  rw [hi]
  simp only [fullPathParts, hp, hfd2]
  congr 1
  have hpdmem : pd2 ∈ dirs := List.mem_of_find?_eq_some hfd2
  exact fullPathParts_fuel dirs hwf pd2.id pd2 hpdmem le_rfl i pd2.id
    (by omega) le_rfl

/-- C10: full-path reconstruction of a Dir joins the stored names from the
topmost ancestor down to the row below the root "/" (root rows yield their
single name, child rows extend the parent path), a File path is its dir
path joined with the file name, and since the root Dir stores only the
scan root base name, the reconstructed path of the root (and of anything
below it) equals the real filesystem path exactly when the scan root is an
immediate child of "/". -/
theorem C10_path_reconstruction (dirs : List DirRow) (f : FileRow)
    (d r : DirRow) (scanRoot : List String)
    (hwf : ParentWf dirs) (hd : d ∈ dirs)
    (hfd : findDir dirs f.dirId = some d)
    (hroot : r.parentId = none)
    (hrname : r.name = scanRoot.getLastD "")
    (hne : scanRoot ≠ []) :
    filePathSegs dirs f = fullPathSegs dirs d ++ [f.name] ∧
    (∀ p pd, d.parentId = some p → findDir dirs p = some pd →
      fullPathSegs dirs d = fullPathSegs dirs pd ++ [d.name]) ∧
    (d.parentId = none → fullPathSegs dirs d = [d.name]) ∧
    fullPathSegs dirs r = [r.name] ∧
    (∀ rel : List String,
      fullPathSegs dirs r ++ rel = scanRoot ++ rel ↔ scanRoot.length = 1) := by
  have hr : fullPathSegs dirs r = [r.name] := by
    unfold fullPathSegs
    exact fullPathParts_parent_none hroot r.id
  refine ⟨?_, ?_, ?_, hr, ?_⟩
  · unfold filePathSegs
    rw [hfd]
  · intro p pd hp hpd
    exact fullPathSegs_parent dirs hwf hd hp hpd
  · intro hnone
    unfold fullPathSegs
    exact fullPathParts_parent_none hnone d.id
  · intro rel
    rw [hr]
    constructor
    · intro hEq
      have hlen := congrArg List.length hEq
      simp only [List.length_append, List.length_singleton] at hlen
      omega
    · intro hlen1
      obtain ⟨x, hx⟩ := List.length_eq_one.mp hlen1
      subst hx
      rw [hrname]
      simp [List.getLastD]

/-- Witness for C10: in the concrete dir table, the file under /tim/a gets
path dir-path plus name, and for scan root ["tim"] (an immediate child of
"/") the reconstructed root path with the relative tail ["a"] equals the
real path. -/
theorem C10_witness :
    filePathSegs stDirs (FileRow.mk 1 2 "f1.txt" 3 101 false true none none)
      = fullPathSegs stDirs (DirRow.mk 2 "a" 8 (some 1) true)
        ++ ["f1.txt"] ∧
    fullPathSegs stDirs (DirRow.mk 1 "tim" 7 none true) ++ ["a"]
      = ["tim"] ++ ["a"] :=
  ⟨(C10_path_reconstruction stDirs
      (FileRow.mk 1 2 "f1.txt" 3 101 false true none none)
      (DirRow.mk 2 "a" 8 (some 1) true)
      (DirRow.mk 1 "tim" 7 none true) ["tim"] (by decide) (by decide)
      (by decide) rfl (by decide) (by decide)).1,
   ((C10_path_reconstruction stDirs
      (FileRow.mk 1 2 "f1.txt" 3 101 false true none none)
      (DirRow.mk 2 "a" 8 (some 1) true)
      (DirRow.mk 1 "tim" 7 none true) ["tim"] (by decide) (by decide)
      (by decide) rfl (by decide) (by decide)).2.2.2.2 ["a"]).mpr rfl⟩

end BluStash
